import Mathlib

/-!
# CoreDNS pipeline component (`demo/cncf/coredns/codes/coredns.go`)

A shallow embedding of the Go program: `parseEnv`, `gitClone`, `corednsBuild`,
`corednsTest`, `corednsRelease` and `main`.

* Go strings are modelled by `String` (sequences of Unicode code points; the
  input is taken to be valid UTF-8, on which `strings.Fields` and
  `strings.Split` with a one-byte ASCII separator act code point by code point).
* Everything the program does to the outside world is recorded, in order, in a
  list of `Event`s; everything the outside world answers (environment
  variables, the result of running a command, of opening a file, of the HTTP
  exchange) is read from a `World`.
* A Go `error` is an `Option String` (`none` is `nil`, `some m` an error whose
  `Error()` text is `m`).
* `os.Exit` and run-time panics are values of `Termination`.
-/

namespace CoreDNS

/-! ## The Go library functions the program calls -/

/-- White space as `unicode.IsSpace` defines it: the Latin-1 spaces
`\t \n \v \f \r`, space, U+0085, U+00A0, and the code points with the Unicode
property `White_Space`. -/
def isSpace (c : Char) : Bool :=
  let n := c.toNat
  (9 ≤ n && n ≤ 13) || n == 32 || n == 133 || n == 160 || n == 5760 ||
  (8192 ≤ n && n ≤ 8202) || n == 8232 || n == 8233 || n == 8239 || n == 8287 ||
  n == 12288

/-- The scanning loop of `strings.Fields`: `cur` is the field being read. -/
def fieldsAux : List Char → List Char → List (List Char)
  | cur, [] => if cur = [] then [] else [cur]
  | cur, c :: cs =>
    if isSpace c then
      if cur = [] then fieldsAux [] cs else cur :: fieldsAux [] cs
    else fieldsAux (cur ++ [c]) cs

/-- Go `strings.Fields`: the maximal runs of non-space characters, in order. -/
def Fields (s : String) : List String :=
  (fieldsAux [] s.data).map String.mk

/-- Splitting a character list around every occurrence of `sep`. -/
def splitAux (sep : Char) : List Char → List (List Char)
  | [] => [[]]
  | c :: cs =>
    if c = sep then [] :: splitAux sep cs
    else
      match splitAux sep cs with
      | [] => [[c]]
      | h :: t => (c :: h) :: t

/-- Go `strings.Split s sep` for a separator of one character (the program
only calls it with `"="` and `"/"`): the pieces of `s` between all occurrences
of the separator, one more than there are occurrences. -/
def Split (s : String) (sep : Char) : List String :=
  (splitAux sep s.data).map String.mk

/-- Go `strings.Join`: the elements with `sep` between them. -/
def joinSep (sep : String) : List String → String
  | [] => ""
  | [x] => x
  | x :: y :: ys => x ++ sep ++ joinSep sep (y :: ys)

/-- What `fmt` prints for a `[]string` under the verb `%s`: the elements
separated by spaces, in square brackets. -/
def fmtSlice (s : List String) : String :=
  "[" ++ joinSep " " s ++ "]"

/-- Go `filepath.Base` on a Unix system: the last element of the path, after
removing trailing slashes; `"."` for the empty path, `"/"` for a path of
slashes only. -/
def Base (path : String) : String :=
  if path = "" then "."
  else
    let stripped := (path.data.reverse.dropWhile (fun c => c = '/')).reverse
    let last := (stripped.reverse.takeWhile (fun c => c ≠ '/')).reverse
    if last = [] then "/" else String.mk last

/-- The treatment of one path element by `path.Clean`: empty elements and `.`
are dropped, `..` removes the element before it (when there is one that is
not itself `..`; at the root it is dropped, otherwise it is kept). -/
def cleanStep (rooted : Bool) (out : List String) (e : String) : List String :=
  if e = "" ∨ e = "." then out
  else if e = ".." then
    match out.getLast? with
    | some top => if top = ".." then out ++ [".."] else out.dropLast
    | none => if rooted then out else [".."]
  else out ++ [e]

/-- Go `path.Clean`, element by element. -/
def Clean (path : String) : String :=
  if path = "" then "."
  else
    let rooted := path.data.head? = some '/'
    let body := joinSep "/" ((Split path '/').foldl (cleanStep rooted) [])
    if rooted then "/" ++ body
    else if body = "" then "." else body

/-- Go `path.Join`: the non-empty elements joined by slashes, then cleaned;
the empty string when all elements are empty. -/
def Join (elem : List String) : String :=
  if (elem.map String.length).sum = 0 then ""
  else
    Clean (elem.foldl
      (fun buf e =>
        if buf ≠ "" ∨ e ≠ "" then (if buf ≠ "" then buf ++ "/" else buf) ++ e
        else buf) "")

/-! ## Events, terminations, the outside world -/

/-- A run-time panic of the Go program. -/
inductive Panic where
  | indexOutOfRange (index len : Nat)
  deriving DecidableEq, Repr

/-- How a run stops when it does not return: `os.Exit code` or a panic. -/
inductive Termination where
  | exit (code : Nat)
  | panic (p : Panic)
  deriving DecidableEq, Repr

/-- What the program does to the outside world. A `run` event is a child
process with the program's own standard output and standard error attached;
`dir` is the directory the child runs in. A `newRequest` event carries the
method and the URL string handed to `http.NewRequest`; a `send` event is
`client.Do` on the request built from them, with its content type and the
file that is its body. What the HTTP library writes on the wire for that URL
string (it parses it and percent-escapes the path) is not modelled. -/
inductive Event where
  | stdout (s : String)
  | stderr (s : String)
  | mkdirAll (path : String)
  | run (name : String) (args : List String) (dir : String)
  | openFile (path : String)
  | closeFile (path : String)
  | newRequest (method url : String)
  | send (method contentType body : String)
  | closeBody
  deriving DecidableEq, Repr

deriving instance DecidableEq for Except

/-- A Go `error`. -/
abbrev Error := Option String

/-- The answers of the outside world. -/
structure World where
  /-- The `os.Getenv` table: the empty string for an unset variable. -/
  getenv : String → String
  /-- The current directory of the process. -/
  cwd : String
  /-- The error of `cmd.Run` for a command name, its arguments and the
  directory it runs in. -/
  runCmd : String → List String → String → Error
  /-- The error of `os.Open`. -/
  openErr : String → Error
  /-- The error of `http.NewRequest` for a method and a URL string. -/
  newRequestErr : String → String → Error
  /-- The outcome of `client.Do` on the request built from a method and a URL
  string: a transport error or a status code. -/
  httpDo : String → String → Except String Nat

/-- The lines written by the program itself to standard output, in order. -/
def stdoutOf : List Event → List String
  | [] => []
  | Event.stdout s :: es => s :: stdoutOf es
  | _ :: es => stdoutOf es

/-- The result marker line `fmt.Fprintf(os.Stdout, "[COUT] CO_RESULT = %s\n", v)`. -/
def resultLine (v : String) : String :=
  "[COUT] CO_RESULT = " ++ v ++ "\n"

/-! ## parseEnv -/

/-- The values `parseEnv` returns: `uri, action, release, err`. -/
structure Parsed where
  uri : String
  action : String
  release : String
  err : Error
  deriving DecidableEq, Repr

/-- The `for _, v := range files` loop of `parseEnv`, with the three named
results as they stand when the loop reaches the remaining tokens. The index
expression `s[1]` panics when the split has fewer than two pieces. -/
def parseEnvLoop : List String → String → String → String →
    List Event × Except Termination Parsed
  | [], uri, action, release => ([], .ok ⟨uri, action, release, none⟩)
  | v :: files, uri, action, release =>
    let s := Split v '='
    match s with
    | key :: value :: _ =>
      if key = "coredns" then parseEnvLoop files value action release
      else if key = "action" then parseEnvLoop files uri value release
      else if key = "release" then parseEnvLoop files uri action value
      else
        let r := parseEnvLoop files uri action release
        (Event.stdout ("[COUT] Unknown Parameter: [" ++ fmtSlice s ++ "]\n") :: r.1, r.2)
    | _ => ([], .error (.panic (.indexOutOfRange 1 s.length)))

/-- Go `parseEnv`. -/
def parseEnv (env : String) : List Event × Except Termination Parsed :=
  let files := Fields env
  if files.length = 0 then
    ([], .ok ⟨"", "", "", some "CO_DATA value is null\n"⟩)
  else
    parseEnvLoop files "" "" ""

/-! ## Running commands -/

/-- Go `exec.Cmd`, as far as the program uses it: `Dir` is the working
directory of the command, and the empty string stands for the current
directory of the calling process. -/
structure Cmd where
  name : String
  args : List String
  dir : String
  deriving DecidableEq, Repr

/-- Go `exec.Command`: `Dir` is left empty. -/
def Command (name : String) (args : List String) : Cmd :=
  ⟨name, args, ""⟩

/-- The directory a command runs in. -/
def Cmd.workDir (w : World) (cmd : Cmd) : String :=
  if cmd.dir = "" then w.cwd else cmd.dir

/-- Go `cmd.Run`. -/
def Cmd.Run (w : World) (cmd : Cmd) : List Event × Error :=
  ([Event.run cmd.name cmd.args (cmd.workDir w)],
   w.runCmd cmd.name cmd.args (cmd.workDir w))

/-- Go `gitClone`: on an error of the command it exits the process itself. -/
def gitClone (w : World) (repo dest : String) : List Event × Except Termination Error :=
  let cmd := Command "git" ["clone", repo, dest]
  match cmd.Run w with
  | (t, some err) =>
    (t ++ [Event.stderr ("[COUT] Git clone error: " ++ err ++ "\n"),
           Event.stdout (resultLine "false")],
     .error (.exit 1))
  | (t, none) => (t, .ok none)

/-- Go `corednsBuild`. -/
def corednsBuild (w : World) : List Event × Error :=
  let cmd := Command "make" ["coredns"]
  match cmd.Run w with
  | (t, some err) =>
    (t ++ [Event.stderr ("[COUT] Make build error: " ++ err ++ "\n"),
           Event.stdout (resultLine "false")],
     some err)
  | (t, none) => (t, none)

/-- Go `corednsTest`. -/
def corednsTest (w : World) : List Event × Error :=
  let cmd := Command "make" ["test"]
  match cmd.Run w with
  | (t, some err) =>
    (t ++ [Event.stderr ("[COUT] Make test error: " ++ err ++ "\n"),
           Event.stdout (resultLine "false")],
     some err)
  | (t, none) => (t, none)

/-! ## corednsRelease -/

/-- A Go index expression `xs[i]` on a slice: it panics out of range. -/
def index (xs : List String) (i : Nat) : Except Termination String :=
  match xs[i]? with
  | some x => .ok x
  | none => .error (.panic (.indexOutOfRange i xs.length))

/-- The four index expressions `strings.Split(release, "/")[0]` to `[3]`, in
the order the program evaluates them. -/
def releaseTarget (release : String) :
    Except Termination (String × String × String × String) :=
  match index (Split release '/') 0 with
  | .error t => .error t
  | .ok domain =>
    match index (Split release '/') 1 with
    | .error t => .error t
    | .ok namespace_ =>
      match index (Split release '/') 2 with
      | .error t => .error t
      | .ok repository =>
        match index (Split release '/') 3 with
        | .error t => .error t
        | .ok tag => .ok (domain, namespace_, repository, tag)

/-- The format `"https://%s/binary/v1/%s/%s/binary/%s/%s"`. -/
def uploadURL (domain namespace_ repository file tag : String) : String :=
  "https://" ++ domain ++ "/binary/v1/" ++ namespace_ ++ "/" ++ repository ++
    "/binary/" ++ file ++ "/" ++ tag

/-- Go `corednsRelease`. The deferred `f.Close()` and `resp.Body.Close()` run
when the function is left, also by a panic. -/
def corednsRelease (w : World) (repo release : String) :
    List Event × Except Termination Error :=
  match corednsBuild w with
  | (t, some err) => (t, .ok (some err))
  | (t, none) =>
    let filePath := repo ++ "/coredns"
    match w.openErr filePath with
    | some err =>
      (t ++ [Event.openFile filePath,
             Event.stderr ("[COUT] Read coredns binary file error: " ++ err ++ "\n"),
             Event.stdout (resultLine "false")],
       .ok (some err))
    | none =>
      match releaseTarget release with
      | .error term =>
        (t ++ [Event.openFile filePath, Event.closeFile filePath], .error term)
      | .ok (domain, namespace_, repository, tag) =>
        let url := uploadURL domain namespace_ repository (Base filePath) tag
        match w.newRequestErr "PUT" url with
        | some err =>
          (t ++ [Event.openFile filePath, Event.newRequest "PUT" url,
                 Event.stderr ("[COUT] Upload coredns binary file error: " ++ err ++ "\n"),
                 Event.stdout (resultLine "false"),
                 Event.closeFile filePath],
           .ok (some err))
        | none =>
          match w.httpDo "PUT" url with
          | .error err =>
            (t ++ [Event.openFile filePath, Event.newRequest "PUT" url,
                   Event.send "PUT" "text/plain" filePath,
                   Event.stderr ("[COUT] Upload coredns binary file error: " ++ err ++ "\n"),
                   Event.stdout (resultLine "false"),
                   Event.closeFile filePath],
             .ok (some err))
          | .ok status =>
            let sent := t ++ [Event.openFile filePath, Event.newRequest "PUT" url,
                   Event.send "PUT" "text/plain" filePath]
            if status = 200 then
              let uri := uploadURL domain namespace_ repository (Base filePath) tag ++ "\n"
              (sent ++ [Event.stdout ("[COUT] CO_COREDNS_URI = " ++ uri),
                        Event.closeBody, Event.closeFile filePath],
               .ok none)
            else if status = 400 then
              (sent ++ [Event.stderr "[COUT] Upload coredns binary file, service return 400 error.",
                        Event.stdout (resultLine "false"),
                        Event.closeBody, Event.closeFile filePath],
               .ok (some "Binary upload failed."))
            else if status = 401 then
              (sent ++ [Event.stderr "[COUT] Upload coredns binary file, service return 401 error.",
                        Event.stdout (resultLine "false"),
                        Event.closeBody, Event.closeFile filePath],
               .ok (some "Action unauthorized."))
            else
              (sent ++ [Event.stderr "[COUT] Upload coredns binary file, service return unknown error.",
                        Event.stdout (resultLine "false"),
                        Event.closeBody, Event.closeFile filePath],
               .ok (some "Unknown error."))

/-! ## main -/

/-- The directory `main` clones into:
`path.Join(os.Getenv("GOPATH"), "src", "github.com", "coredns", "coredns")`. -/
def basePath (w : World) : String :=
  Join [w.getenv "GOPATH", "src", "github.com", "coredns", "coredns"]

/-- The `switch action` of `main` and what follows it; `t` is what has
happened so far. -/
def dispatch (w : World) (t : List Event) (action release : String) :
    List Event × Termination :=
  let unknown := "Unknown action, the component only support build, test and release action."
  if action = "build" then
    match corednsBuild w with
    | (b, some _) => (t ++ b, .exit 1)
    | (b, none) => (t ++ b ++ [Event.stdout (resultLine "true")], .exit 0)
  else if action = "test" then
    match corednsTest w with
    | (b, some _) => (t ++ b, .exit 1)
    | (b, none) => (t ++ b ++ [Event.stdout (resultLine "true")], .exit 0)
  else if action = "release" then
    match corednsRelease w (basePath w) release with
    | (b, .error term) => (t ++ b, term)
    | (b, .ok (some _)) => (t ++ b, .exit 1)
    | (b, .ok none) => (t ++ b ++ [Event.stdout (resultLine "true")], .exit 0)
  else
    (t ++ [Event.stderr ("[COUT] " ++ unknown ++ "\n"),
           Event.stdout (resultLine "false")],
     .exit 1)

/-- Go `main`: the events of the run and how the process ends. -/
def main (w : World) : List Event × Termination :=
  let data := w.getenv "CO_DATA"
  if data.length = 0 then
    ([Event.stderr ("[COUT] " ++ "The CO_DATA value is null." ++ "\n"),
      Event.stdout (resultLine "The CO_DATA value is null.")],
     .exit 1)
  else
    match parseEnv data with
    | (p, .error term) => (p, term)
    | (p, .ok ⟨_, _, _, some err⟩) =>
      (p ++ [Event.stderr ("[COUT] Parse the CO_DATA error: " ++ err ++ "\n"),
             Event.stdout (resultLine "false")],
       .exit 1)
    | (p, .ok ⟨corednsRepo, action, release, none⟩) =>
      match gitClone w corednsRepo (basePath w) with
      | (c, .error term) => (p ++ [Event.mkdirAll (basePath w)] ++ c, term)
      | (c, .ok (some err)) =>
        (p ++ [Event.mkdirAll (basePath w)] ++ c ++
           [Event.stderr ("[COUT] Clone the coredns repository error: " ++ err ++ "\n"),
            Event.stdout (resultLine "false")],
         .exit 1)
      | (c, .ok none) =>
        dispatch w (p ++ [Event.mkdirAll (basePath w)] ++ c) action release

/-- A world for trying the program: every command, the file and the request
succeed, and the upload is answered with `status`. -/
def sampleWorld (coData : String) (status : Nat) : World where
  getenv := fun k =>
    if k = "CO_DATA" then coData else if k = "GOPATH" then "/go" else ""
  cwd := "/tmp"
  runCmd := fun _ _ _ => none
  openErr := fun _ => none
  newRequestErr := fun _ _ => none
  httpDo := fun _ _ => .ok status

/-! ## The specification's artifact URI and its reading of a token list -/

/-- The artifact URI the specification gives for the release target
`domain/namespace/repository/tag`: the file name is `coredns`. -/
def artifactURI (domain namespace_ repository tag : String) : String :=
  "https://" ++ domain ++ "/binary/v1/" ++ namespace_ ++ "/" ++ repository ++
    "/binary/coredns/" ++ tag


/-- The value of the token `t` for `key` as the specification reads it: all
that follows `key=`, when `t` starts with `key=`. -/
def valueAfter (key t : String) : Option String :=
  if (key.data ++ ['=']).isPrefixOf t.data then
    some (String.mk (t.data.drop (key.data.length + 1)))
  else none

/-- The value of the last token with the given key, the empty string when
there is none. -/
def lastValue (key : String) (toks : List String) : String :=
  (toks.filterMap (valueAfter key)).getLast?.getD ""

/-- What lies between `key=` and the next `=` of the token (or its end), when
`t` starts with `key=`. -/
def valueUpToEq (key t : String) : Option String :=
  if (key.data ++ ['=']).isPrefixOf t.data then
    some (String.mk ((t.data.drop (key.data.length + 1)).takeWhile (fun c => c != '=')))
  else none

/-- The `valueUpToEq` of the last token with the given key, `d` when there is
none. -/
def lastSegmentD (key : String) (toks : List String) (d : String) : String :=
  (toks.filterMap (valueUpToEq key)).getLast?.getD d

/-! ## Lemmas on `Fields` and `Split` -/

theorem fieldsAux_eq_nil (cs : List Char) :
    ∀ cur, fieldsAux cur cs = [] ↔ cur = [] ∧ ∀ c ∈ cs, isSpace c = true := by
  induction cs with
  | nil => intro cur; simp [fieldsAux]
  | cons c cs ih =>
    intro cur
    by_cases hc : isSpace c = true
    · by_cases hcur : cur = []
      · simp [fieldsAux, hc, hcur, ih]
      · simp [fieldsAux, hc, hcur]
    · simp [fieldsAux, hc, ih]

theorem Fields_eq_nil (env : String) :
    Fields env = [] ↔ ∀ c ∈ env.data, isSpace c = true := by
  simp [Fields, fieldsAux_eq_nil]

theorem splitAux_ne_nil (sep : Char) (cs : List Char) : splitAux sep cs ≠ [] := by
  cases cs with
  | nil => simp [splitAux]
  | cons c cs =>
    by_cases h : c = sep
    · simp [splitAux, h]
    · simp only [splitAux, h, if_false]
      split <;> simp

theorem splitAux_of_not_mem (sep : Char) (cs : List Char) (h : sep ∉ cs) :
    splitAux sep cs = [cs] := by
  induction cs with
  | nil => simp [splitAux]
  | cons c cs ih =>
    have h1 : c ≠ sep := fun e => h (by simp [e])
    have h2 : sep ∉ cs := fun e => h (by simp [e])
    simp [splitAux, h1, ih h2]

theorem splitAux_of_mem (sep : Char) (cs : List Char) (h : sep ∈ cs) :
    splitAux sep cs = cs.takeWhile (fun c => c != sep) ::
      splitAux sep (cs.dropWhile (fun c => c != sep)).tail := by
  induction cs with
  | nil => simp at h
  | cons c cs ih =>
    by_cases hc : c = sep
    · simp [splitAux, hc, List.takeWhile, List.dropWhile]
    · have h2 : sep ∈ cs := by
        rcases List.mem_cons.1 h with e | e
        · exact absurd e.symm hc
        · exact e
      have hb : (c != sep) = true := by simpa using hc
      simp [splitAux, hc, ih h2, List.takeWhile_cons, List.dropWhile_cons, hb]

theorem splitAux_length (sep : Char) (cs : List Char) :
    (splitAux sep cs).length = cs.count sep + 1 := by
  induction cs with
  | nil => simp [splitAux]
  | cons c cs ih =>
    by_cases hc : c = sep
    · simp [splitAux, hc, ih]
    · have hc2 : ¬ (c == sep) = true := by simpa using hc
      simp only [splitAux, hc, if_false, List.count_cons, hc2]
      split
      · next h => exact absurd h (splitAux_ne_nil sep cs)
      · next a b h => rw [h] at ih; simpa using ih

theorem Split_length (s : String) (sep : Char) :
    (Split s sep).length = s.data.count sep + 1 := by
  simp [Split, splitAux_length]

theorem splitAux_head (sep : Char) (cs : List Char) :
    ∃ tl, splitAux sep cs = cs.takeWhile (fun c => c != sep) :: tl := by
  by_cases h : sep ∈ cs
  · exact ⟨_, splitAux_of_mem sep cs h⟩
  · refine ⟨[], ?_⟩
    rw [splitAux_of_not_mem sep cs h]
    congr 1
    symm
    rw [List.takeWhile_eq_self_iff]
    intro x hx
    have : x ≠ sep := fun e => h (e ▸ hx)
    simpa using this

/-- A token with a `=` splits into at least two pieces: what precedes the
first `=`, and what lies between the first `=` and the next one. -/
theorem Split_of_mem (v : String) (h : '=' ∈ v.data) :
    ∃ tl, Split v '=' =
      String.mk (v.data.takeWhile (fun c => c != '=')) ::
      String.mk ((v.data.dropWhile (fun c => c != '=')).tail.takeWhile (fun c => c != '=')) ::
      tl := by
  obtain ⟨tl, htl⟩ := splitAux_head '=' (v.data.dropWhile (fun c => c != '=')).tail
  refine ⟨tl.map String.mk, ?_⟩
  simp [Split, splitAux_of_mem '=' v.data h, htl]

theorem Split_of_not_mem (v : String) (h : '=' ∉ v.data) : Split v '=' = [v] := by
  simp [Split, splitAux_of_not_mem '=' v.data h]

theorem takeWhile_ne_append (sep : Char) (k x : List Char) (hk : sep ∉ k) :
    (k ++ sep :: x).takeWhile (fun c => c != sep) = k := by
  induction k with
  | nil => simp [List.takeWhile_cons]
  | cons c k ih =>
    have h1 : c ≠ sep := fun e => hk (by simp [e])
    have h2 : sep ∉ k := fun e => hk (by simp [e])
    have hb : (c != sep) = true := by simpa using h1
    simp [List.takeWhile_cons, hb, ih h2]

theorem eq_takeWhile_append (sep : Char) (cs : List Char) (h : sep ∈ cs) :
    cs = cs.takeWhile (fun c => c != sep) ++
      sep :: (cs.dropWhile (fun c => c != sep)).tail := by
  induction cs with
  | nil => simp at h
  | cons c cs ih =>
    by_cases hc : c = sep
    · simp [List.takeWhile_cons, List.dropWhile_cons, hc]
    · have h2 : sep ∈ cs := by
        rcases List.mem_cons.1 h with e | e
        · exact absurd e.symm hc
        · exact e
      have hb : (c != sep) = true := by simpa using hc
      simp only [List.takeWhile_cons, List.dropWhile_cons, hb, if_true, List.cons_append]
      exact congrArg _ (ih h2)

/-- For a token with a `=` and a key without one, the specification's
`valueUpToEq` is what the code reads off the split. -/
theorem valueUpToEq_eq (key v : String) (hk : '=' ∉ key.data) (hv : '=' ∈ v.data) :
    valueUpToEq key v =
      if String.mk (v.data.takeWhile (fun c => c != '=')) = key then
        some (String.mk
          ((v.data.dropWhile (fun c => c != '=')).tail.takeWhile (fun c => c != '=')))
      else none := by
  have hdec := eq_takeWhile_append '=' v.data hv
  generalize hkk : v.data.takeWhile (fun c => c != '=') = k at hdec ⊢
  generalize hrr : (v.data.dropWhile (fun c => c != '=')).tail = rest at hdec ⊢
  unfold valueUpToEq
  by_cases hkey : String.mk k = key
  · have hkd : key.data = k := by rw [← hkey]
    have hp : (key.data ++ ['=']).isPrefixOf v.data = true := by
      rw [List.isPrefixOf_iff_prefix, hdec, hkd]
      exact ⟨rest, by simp⟩
    have hd : v.data.drop (key.data.length + 1) = rest := by
      rw [hdec, hkd]
      simp
    rw [if_pos hp, if_pos hkey, hd]
  · have hp : ¬ (key.data ++ ['=']).isPrefixOf v.data = true := by
      rw [List.isPrefixOf_iff_prefix]
      rintro ⟨x, hx⟩
      apply hkey
      have : v.data.takeWhile (fun c => c != '=') = key.data := by
        rw [← hx]
        simpa using takeWhile_ne_append '=' key.data x hk
      rw [hkk] at this
      rw [this]
    rw [if_neg hp, if_neg hkey]

theorem lastSegmentD_nil (key d : String) : lastSegmentD key [] d = d := by
  simp [lastSegmentD]

theorem lastSegmentD_cons (key v : String) (vs : List String) (d : String) :
    lastSegmentD key (v :: vs) d = lastSegmentD key vs ((valueUpToEq key v).getD d) := by
  unfold lastSegmentD
  cases h : valueUpToEq key v with
  | none => simp [List.filterMap_cons, h]
  | some x => simp [List.filterMap_cons, h, List.getLast?_cons]

/-- What the loop of `parseEnv` returns, for every token list. -/
theorem parseEnvLoop_snd (toks : List String) :
    ∀ uri action release,
      (parseEnvLoop toks uri action release).2 =
        if ∀ t ∈ toks, '=' ∈ t.data then
          .ok ⟨lastSegmentD "coredns" toks uri, lastSegmentD "action" toks action,
               lastSegmentD "release" toks release, none⟩
        else .error (.panic (.indexOutOfRange 1 1)) := by
  induction toks with
  | nil => intro u a r; simp [parseEnvLoop, lastSegmentD_nil]
  | cons v vs ih =>
    intro u a r
    by_cases hv : '=' ∈ v.data
    · obtain ⟨tl, htl⟩ := Split_of_mem v hv
      have e1 := valueUpToEq_eq "coredns" v (by decide) hv
      have e2 := valueUpToEq_eq "action" v (by decide) hv
      have e3 := valueUpToEq_eq "release" v (by decide) hv
      generalize String.mk (v.data.takeWhile (fun c => c != '=')) = key at htl e1 e2 e3
      generalize String.mk
        ((v.data.dropWhile (fun c => c != '=')).tail.takeWhile (fun c => c != '=')) = value
        at htl e1 e2 e3
      simp only [lastSegmentD_cons, e1, e2, e3, List.forall_mem_cons, hv, true_and]
      unfold parseEnvLoop
      simp only [htl]
      by_cases h1 : key = "coredns"
      · subst h1
        simp [ih]
      · by_cases h2 : key = "action"
        · subst h2
          simp [ih]
        · by_cases h3 : key = "release"
          · subst h3
            simp [ih]
          · simp [h1, h2, h3, ih]
    · have hs := Split_of_not_mem v hv
      unfold parseEnvLoop
      simp [hs, hv]

theorem drop_append_cons (k x : List Char) (c : Char) :
    (k ++ c :: x).drop (k.length + 1) = x := by
  induction k with
  | nil => simp
  | cons a k ih => simp

theorem valueUpToEq_of_count_one (key t : String) (h : t.data.count '=' = 1) :
    valueUpToEq key t = valueAfter key t := by
  unfold valueUpToEq valueAfter
  by_cases hp : (key.data ++ ['=']).isPrefixOf t.data = true
  · rw [if_pos hp, if_pos hp]
    obtain ⟨x, hx⟩ := List.isPrefixOf_iff_prefix.1 hp
    have hd : t.data.drop (key.data.length + 1) = x := by
      rw [← hx]
      simpa using drop_append_cons key.data x '='
    have hc : x.count '=' = 0 := by
      rw [← hx] at h
      simp only [List.count_append, List.count_singleton_self] at h
      omega
    have hx2 : x.takeWhile (fun c => c != '=') = x := by
      rw [List.takeWhile_eq_self_iff]
      intro c hc2
      have : c ≠ '=' := fun e => (List.count_eq_zero.1 hc) (e ▸ hc2)
      simpa using this
    rw [hd, hx2]
  · rw [if_neg hp, if_neg hp]

theorem parseEnv_snd_of_tokens (env : String) (hne : Fields env ≠ []) :
    (parseEnv env).2 = (parseEnvLoop (Fields env) "" "" "").2 := by
  have : (Fields env).length ≠ 0 := by simpa using hne
  simp [parseEnv, this]

/-- C3: when the input has at least one token and every token is `key=value`
with exactly one `=`, `parseEnv` returns no error, and `uri`, `action` and
`release` are the values of the last token with key `coredns`, `action` and
`release`, the empty string when there is no such token; tokens with other
keys contribute to none of the three and cause no error. -/
theorem parseEnv_key_value (env : String) (hne : Fields env ≠ [])
    (hone : ∀ t ∈ Fields env, t.data.count '=' = 1) :
    (parseEnv env).2 =
      .ok ⟨lastValue "coredns" (Fields env), lastValue "action" (Fields env),
           lastValue "release" (Fields env), none⟩ := by
  have hall : ∀ t ∈ Fields env, '=' ∈ t.data := by
    intro t ht
    have := hone t ht
    exact List.count_pos_iff.1 (by omega)
  have hcongr : ∀ key, lastSegmentD key (Fields env) "" = lastValue key (Fields env) := by
    intro key
    unfold lastSegmentD lastValue
    rw [List.filterMap_congr (fun t ht => valueUpToEq_of_count_one key t (hone t ht))]
  rw [parseEnv_snd_of_tokens env hne, parseEnvLoop_snd, if_pos hall]
  simp [hcongr]

theorem parseEnv_key_value_witness :
    (parseEnv "x=1 coredns=a action=test coredns=b y=2").2 =
      .ok ⟨"b", "test", "", none⟩ :=
  parseEnv_key_value "x=1 coredns=a action=test coredns=b y=2" (by decide) (by decide)

/-- C4: on an input that is empty or all white space (which is when it has no
token) `parseEnv` returns the error `CO_DATA value is null` with empty `uri`,
`action` and `release` and does nothing else; on an input with a token it
never returns an error: whatever it returns has a nil error. -/
theorem parseEnv_null_error (env : String) :
    (Fields env = [] ↔ ∀ c ∈ env.data, isSpace c = true) ∧
    (Fields env = [] →
      parseEnv env = ([], .ok ⟨"", "", "", some "CO_DATA value is null\n"⟩)) ∧
    (Fields env ≠ [] → ∀ p, (parseEnv env).2 = .ok p → p.err = none) := by
  refine ⟨Fields_eq_nil env, ?_, ?_⟩
  · intro h
    simp [parseEnv, h]
  · intro hne p hp
    rw [parseEnv_snd_of_tokens env hne, parseEnvLoop_snd] at hp
    split at hp
    · cases hp
      rfl
    · cases hp

theorem parseEnv_null_error_witness :
    parseEnv " \t\n" = ([], .ok ⟨"", "", "", some "CO_DATA value is null\n"⟩) ∧
    (∀ p, (parseEnv " a=b ").2 = .ok p → p.err = none) :=
  ⟨(parseEnv_null_error " \t\n").2.1 (by decide),
   (parseEnv_null_error " a=b ").2.2 (by decide)⟩

/-- C5, as the claim states it, fails: the URI stored for the token
`coredns=https://h/r.git?a=b` is `https://h/r.git?a`, not all that follows
the first `=`. -/
theorem parseEnv_value_cut_at_second_eq :
    (parseEnv "coredns=https://h/r.git?a=b").2 =
      .ok ⟨"https://h/r.git?a", "", "", none⟩ ∧
    (parseEnv "coredns=https://h/r.git?a=b").2 ≠
      .ok ⟨"https://h/r.git?a=b", "", "", none⟩ := by
  decide

/-- C5, amended: `parseEnv` splits each token on every `=` and uses the first
two pieces. When every token has a `=`, the field stored for a recognized key
is, for the last token `key=v` with that key, the part of `v` before its
first `=` (all of `v` when `v` has no `=`), and the empty string when no token
has the key. -/
theorem parseEnv_value_up_to_eq (env : String) (hne : Fields env ≠ [])
    (hall : ∀ t ∈ Fields env, '=' ∈ t.data) :
    (parseEnv env).2 =
      .ok ⟨lastSegmentD "coredns" (Fields env) "", lastSegmentD "action" (Fields env) "",
           lastSegmentD "release" (Fields env) "", none⟩ ∧
    ∀ key v : String, valueUpToEq key (key ++ "=" ++ v) =
      some (String.mk (v.data.takeWhile (fun c => c != '='))) := by
  constructor
  · rw [parseEnv_snd_of_tokens env hne, parseEnvLoop_snd, if_pos hall]
  · intro key v
    have hp : (key.data ++ ['=']).isPrefixOf (key ++ "=" ++ v).data = true := by
      rw [List.isPrefixOf_iff_prefix]
      exact ⟨v.data, by simp [String.data_append]⟩
    have hd : (key ++ "=" ++ v).data.drop (key.data.length + 1) = v.data := by
      have : (key ++ "=" ++ v).data = key.data ++ '=' :: v.data := by
        simp [String.data_append]
      rw [this]
      exact drop_append_cons key.data v.data '='
    unfold valueUpToEq
    rw [if_pos hp, hd]

theorem parseEnv_value_up_to_eq_witness :
    (parseEnv "coredns=https://h/r.git?a=b action=build=x").2 =
      .ok ⟨"https://h/r.git?a", "build", "", none⟩ :=
  (parseEnv_value_up_to_eq "coredns=https://h/r.git?a=b action=build=x"
    (by decide) (by decide)).1

/-- C10: `parseEnv` panics with an index out of range (index 1, length 1)
exactly when some token of its input has no `=`, whatever that token is, and
it returns (a result or the null error) exactly when every token has one. -/
theorem parseEnv_panics_iff (env : String) :
    ((parseEnv env).2 = .error (.panic (.indexOutOfRange 1 1)) ↔
      ∃ t ∈ Fields env, '=' ∉ t.data) ∧
    ((∃ p, (parseEnv env).2 = .ok p) ↔ ∀ t ∈ Fields env, '=' ∈ t.data) := by
  by_cases hne : Fields env = []
  · simp [parseEnv, hne]
  · rw [parseEnv_snd_of_tokens env hne, parseEnvLoop_snd]
    by_cases hall : ∀ t ∈ Fields env, '=' ∈ t.data
    · rw [if_pos hall]
      refine ⟨⟨fun h => (by cases h), ?_⟩, ⟨fun _ => hall, fun _ => ⟨_, rfl⟩⟩⟩
      rintro ⟨t, ht, hn⟩
      exact absurd (hall t ht) hn
    · rw [if_neg hall]
      refine ⟨⟨fun _ => ?_, fun _ => rfl⟩, ⟨?_, fun h => absurd h hall⟩⟩
      · push_neg at hall
        exact hall
      · rintro ⟨p, hp⟩
        cases hp

/-! ## Lemmas on the commands and on `corednsRelease` -/

theorem stdoutOf_append (a b : List Event) : stdoutOf (a ++ b) = stdoutOf a ++ stdoutOf b := by
  induction a with
  | nil => simp [stdoutOf]
  | cons e a ih => cases e <;> simp [stdoutOf, ih]

theorem corednsBuild_eq (w : World) :
    corednsBuild w =
      match w.runCmd "make" ["coredns"] w.cwd with
      | none => ([Event.run "make" ["coredns"] w.cwd], none)
      | some e =>
        ([Event.run "make" ["coredns"] w.cwd,
          Event.stderr ("[COUT] Make build error: " ++ e ++ "\n"),
          Event.stdout (resultLine "false")], some e) := by
  unfold corednsBuild Cmd.Run Command Cmd.workDir
  cases hr : w.runCmd "make" ["coredns"] w.cwd <;> simp [hr]

theorem corednsBuild_ok (w : World) (h : (corednsBuild w).2 = none) :
    corednsBuild w = ([Event.run "make" ["coredns"] w.cwd], none) := by
  rw [corednsBuild_eq] at h ⊢
  cases hr : w.runCmd "make" ["coredns"] w.cwd with
  | none => rfl
  | some e => simp [hr] at h

theorem corednsBuild_err (w : World) (e : String) (h : (corednsBuild w).2 = some e) :
    corednsBuild w =
      ([Event.run "make" ["coredns"] w.cwd,
        Event.stderr ("[COUT] Make build error: " ++ e ++ "\n"),
        Event.stdout (resultLine "false")], some e) := by
  rw [corednsBuild_eq] at h ⊢
  cases hr : w.runCmd "make" ["coredns"] w.cwd with
  | none => simp [hr] at h
  | some e2 =>
    have : e2 = e := by simpa [hr] using h
    subst this
    rfl

theorem corednsTest_eq (w : World) :
    corednsTest w =
      match w.runCmd "make" ["test"] w.cwd with
      | none => ([Event.run "make" ["test"] w.cwd], none)
      | some e =>
        ([Event.run "make" ["test"] w.cwd,
          Event.stderr ("[COUT] Make test error: " ++ e ++ "\n"),
          Event.stdout (resultLine "false")], some e) := by
  unfold corednsTest Cmd.Run Command Cmd.workDir
  cases hr : w.runCmd "make" ["test"] w.cwd <;> simp [hr]

theorem corednsTest_ok (w : World) (h : (corednsTest w).2 = none) :
    corednsTest w = ([Event.run "make" ["test"] w.cwd], none) := by
  rw [corednsTest_eq] at h ⊢
  cases hr : w.runCmd "make" ["test"] w.cwd with
  | none => rfl
  | some e => simp [hr] at h

theorem corednsTest_err (w : World) (e : String) (h : (corednsTest w).2 = some e) :
    corednsTest w =
      ([Event.run "make" ["test"] w.cwd,
        Event.stderr ("[COUT] Make test error: " ++ e ++ "\n"),
        Event.stdout (resultLine "false")], some e) := by
  rw [corednsTest_eq] at h ⊢
  cases hr : w.runCmd "make" ["test"] w.cwd with
  | none => simp [hr] at h
  | some e2 =>
    have : e2 = e := by simpa [hr] using h
    subst this
    rfl

theorem gitClone_eq (w : World) (repo dest : String) :
    gitClone w repo dest =
      match w.runCmd "git" ["clone", repo, dest] w.cwd with
      | none => ([Event.run "git" ["clone", repo, dest] w.cwd], .ok none)
      | some e =>
        ([Event.run "git" ["clone", repo, dest] w.cwd,
          Event.stderr ("[COUT] Git clone error: " ++ e ++ "\n"),
          Event.stdout (resultLine "false")], .error (.exit 1)) := by
  unfold gitClone Cmd.Run Command Cmd.workDir
  cases hr : w.runCmd "git" ["clone", repo, dest] w.cwd <;> simp [hr]

/-- The file name in the upload URL is `coredns`, whatever the repository
path is. -/
theorem Base_coredns (repo : String) : Base (repo ++ "/coredns") = "coredns" := by
  have hd : (repo ++ "/coredns").data = repo.data ++ "/coredns".data := by
    simp [String.data_append]
  have hne : repo ++ "/coredns" ≠ "" := by
    intro h
    have := congrArg String.data h
    rw [hd] at this
    simp at this
  unfold Base
  rw [if_neg hne, hd]
  simp [List.reverse_append, List.dropWhile_cons, List.takeWhile_cons]

theorem releaseTarget_eq (release : String) :
    releaseTarget release =
      match Split release '/' with
      | d :: n :: r :: t :: _ => .ok (d, n, r, t)
      | l => .error (.panic (.indexOutOfRange l.length l.length)) := by
  unfold releaseTarget index
  rcases Split release '/' with _ | ⟨a, _ | ⟨b, _ | ⟨c, _ | ⟨d, l⟩⟩⟩⟩ <;> simp

theorem splitAux_append_cons (sep : Char) (k x : List Char) (hk : sep ∉ k) :
    splitAux sep (k ++ sep :: x) = k :: splitAux sep x := by
  induction k with
  | nil => simp [splitAux]
  | cons c k ih =>
    have h1 : c ≠ sep := fun e => hk (by simp [e])
    have h2 : sep ∉ k := fun e => hk (by simp [e])
    simp [splitAux, h1, ih h2]

/-- A release string `d/n/r/t` splits into its four components. -/
theorem Split_release (d n r t : String) (hd : '/' ∉ d.data) (hn : '/' ∉ n.data)
    (hr : '/' ∉ r.data) (ht : '/' ∉ t.data) :
    Split (d ++ "/" ++ n ++ "/" ++ r ++ "/" ++ t) '/' = [d, n, r, t] := by
  have e : (d ++ "/" ++ n ++ "/" ++ r ++ "/" ++ t).data =
      d.data ++ '/' :: (n.data ++ '/' :: (r.data ++ '/' :: t.data)) := by
    simp [String.data_append]
  unfold Split
  rw [e, splitAux_append_cons _ _ _ hd, splitAux_append_cons _ _ _ hn,
    splitAux_append_cons _ _ _ hr, splitAux_of_not_mem _ _ ht]
  rfl

/-- The run of `corednsRelease` once the build has succeeded, the file has
opened and the release string has given its four components. -/
theorem corednsRelease_of_target (w : World) (repo release d n r t : String)
    (hb : (corednsBuild w).2 = none) (ho : w.openErr (repo ++ "/coredns") = none)
    (ht : releaseTarget release = .ok (d, n, r, t)) :
    corednsRelease w repo release =
      match w.newRequestErr "PUT" (uploadURL d n r "coredns" t) with
      | some err =>
        ([Event.run "make" ["coredns"] w.cwd, Event.openFile (repo ++ "/coredns"),
          Event.newRequest "PUT" (uploadURL d n r "coredns" t),
          Event.stderr ("[COUT] Upload coredns binary file error: " ++ err ++ "\n"),
          Event.stdout (resultLine "false"),
          Event.closeFile (repo ++ "/coredns")], .ok (some err))
      | none =>
        match w.httpDo "PUT" (uploadURL d n r "coredns" t) with
        | .error err =>
          ([Event.run "make" ["coredns"] w.cwd, Event.openFile (repo ++ "/coredns"),
            Event.newRequest "PUT" (uploadURL d n r "coredns" t),
            Event.send "PUT" "text/plain" (repo ++ "/coredns"),
            Event.stderr ("[COUT] Upload coredns binary file error: " ++ err ++ "\n"),
            Event.stdout (resultLine "false"),
            Event.closeFile (repo ++ "/coredns")], .ok (some err))
        | .ok status =>
          ([Event.run "make" ["coredns"] w.cwd, Event.openFile (repo ++ "/coredns"),
            Event.newRequest "PUT" (uploadURL d n r "coredns" t),
            Event.send "PUT" "text/plain" (repo ++ "/coredns")] ++
           (if status = 200 then
              [Event.stdout ("[COUT] CO_COREDNS_URI = " ++ uploadURL d n r "coredns" t ++ "\n")]
            else if status = 400 then
              [Event.stderr "[COUT] Upload coredns binary file, service return 400 error.",
               Event.stdout (resultLine "false")]
            else if status = 401 then
              [Event.stderr "[COUT] Upload coredns binary file, service return 401 error.",
               Event.stdout (resultLine "false")]
            else
              [Event.stderr "[COUT] Upload coredns binary file, service return unknown error.",
               Event.stdout (resultLine "false")]) ++
           [Event.closeBody, Event.closeFile (repo ++ "/coredns")],
           if status = 200 then .ok none
           else if status = 400 then .ok (some "Binary upload failed.")
           else if status = 401 then .ok (some "Action unauthorized.")
           else .ok (some "Unknown error.")) := by
  unfold corednsRelease
  rw [corednsBuild_ok w hb]
  simp only [ho, ht, Base_coredns]
  cases w.newRequestErr "PUT" (uploadURL d n r "coredns" t) with
  | some err => simp
  | none =>
    cases w.httpDo "PUT" (uploadURL d n r "coredns" t) with
    | error err => simp
    | ok status =>
      by_cases h2 : status = 200
      · simp [h2, String.append_assoc]
      · by_cases h4 : status = 400
        · simp [h4]
        · by_cases h41 : status = 401
          · simp [h41]
          · simp [h2, h4, h41]

/-- C9: once the build has succeeded and the binary file has opened,
`corednsRelease` panics with an index out of range exactly when the release
string has fewer than four `/`-separated segments, that is fewer than three
`/` (the empty string among them); the failing index is then the number of
segments. With four or more segments it builds the request from the first
four and returns. -/
theorem corednsRelease_panics_iff (w : World) (repo release : String)
    (hb : (corednsBuild w).2 = none) (ho : w.openErr (repo ++ "/coredns") = none) :
    ((∃ p, (corednsRelease w repo release).2 = .error (.panic p)) ↔
      (Split release '/').length < 4) ∧
    ((Split release '/').length < 4 ↔ release.data.count '/' < 3) ∧
    ((Split release '/').length < 4 →
      corednsRelease w repo release =
        ([Event.run "make" ["coredns"] w.cwd, Event.openFile (repo ++ "/coredns"),
          Event.closeFile (repo ++ "/coredns")],
         .error (.panic (.indexOutOfRange (Split release '/').length
           (Split release '/').length)))) ∧
    (∀ d n r t rest, Split release '/' = d :: n :: r :: t :: rest →
      Event.newRequest "PUT" (uploadURL d n r "coredns" t) ∈
        (corednsRelease w repo release).1 ∧
      ∃ e, (corednsRelease w repo release).2 = .ok e) := by
  have hlen := Split_length release '/'
  have hlong : ∀ d n r t rest, Split release '/' = d :: n :: r :: t :: rest →
      Event.newRequest "PUT" (uploadURL d n r "coredns" t) ∈
        (corednsRelease w repo release).1 ∧
      ∃ e, (corednsRelease w repo release).2 = .ok e := by
    intro d n r t rest hs
    have ht : releaseTarget release = .ok (d, n, r, t) := by
      rw [releaseTarget_eq, hs]
    rw [corednsRelease_of_target w repo release d n r t hb ho ht]
    cases w.newRequestErr "PUT" (uploadURL d n r "coredns" t) with
    | some err => simp
    | none =>
      cases w.httpDo "PUT" (uploadURL d n r "coredns" t) with
      | error err => simp
      | ok status =>
        refine ⟨by simp, ?_⟩
        simp only
        split_ifs <;> exact ⟨_, rfl⟩
  have hshort : (Split release '/').length < 4 →
      corednsRelease w repo release =
        ([Event.run "make" ["coredns"] w.cwd, Event.openFile (repo ++ "/coredns"),
          Event.closeFile (repo ++ "/coredns")],
         .error (.panic (.indexOutOfRange (Split release '/').length
           (Split release '/').length))) := by
    intro h
    have ht : releaseTarget release =
        .error (.panic (.indexOutOfRange (Split release '/').length
           (Split release '/').length)) := by
      rw [releaseTarget_eq]
      rcases hs : Split release '/' with _ | ⟨a, _ | ⟨b, _ | ⟨c, _ | ⟨d, l⟩⟩⟩⟩
      · rfl
      · rfl
      · rfl
      · rfl
      · exfalso
        rw [hs] at h
        simp only [List.length_cons] at h
        omega
    unfold corednsRelease
    rw [corednsBuild_ok w hb]
    simp only [ho, ht]
    simp
  refine ⟨⟨?_, fun h => ⟨_, by rw [hshort h]⟩⟩, by omega, hshort, hlong⟩
  rintro ⟨p, hp⟩
  by_contra hge
  rcases hs : Split release '/' with _ | ⟨a, _ | ⟨b, _ | ⟨c, _ | ⟨d, l⟩⟩⟩⟩
  · rw [hs] at hge; simp at hge
  · rw [hs] at hge; simp at hge
  · rw [hs] at hge; simp at hge
  · rw [hs] at hge; simp at hge
  · obtain ⟨_, e, he⟩ := hlong a b c d l hs
    rw [he] at hp
    cases hp

theorem corednsRelease_panics_iff_witness :
    corednsRelease (sampleWorld "coredns=u action=release" 200) "/go" "" =
      ([Event.run "make" ["coredns"] "/tmp", Event.openFile "/go/coredns",
        Event.closeFile "/go/coredns"],
       .error (.panic (.indexOutOfRange 1 1))) ∧
    (main (sampleWorld "coredns=u action=release" 200)).2 = .panic (.indexOutOfRange 1 1) :=
  ⟨(corednsRelease_panics_iff (sampleWorld "coredns=u action=release" 200) "/go" ""
    (by decide) (by decide)).2.2.1 (by decide), by decide⟩

theorem uploadURL_coredns (d n r t : String) :
    uploadURL d n r "coredns" t = artifactURI d n r t := by
  apply String.ext
  simp [uploadURL, artifactURI, String.data_append]

/-- C6: for a release string `d/n/r/t` of four components and every
repository path, once the build has succeeded and the file has opened, the
URL string `corednsRelease` builds and hands to `http.NewRequest` for its
`PUT` is `https://d/binary/v1/n/r/binary/coredns/t`, and it asks for no other
URL; when the request is answered with status 200 the run prints that same
string as `CO_COREDNS_URI` and returns no error. The components are inserted
in the string as they are, and the file name is `coredns` whatever the
repository path is. -/
theorem corednsRelease_upload_uri (w : World) (repo d n r t : String)
    (hd : '/' ∉ d.data) (hn : '/' ∉ n.data) (hr : '/' ∉ r.data) (ht : '/' ∉ t.data)
    (hb : (corednsBuild w).2 = none) (ho : w.openErr (repo ++ "/coredns") = none) :
    Event.newRequest "PUT" (artifactURI d n r t) ∈
      (corednsRelease w repo (d ++ "/" ++ n ++ "/" ++ r ++ "/" ++ t)).1 ∧
    (∀ m u, Event.newRequest m u ∈
        (corednsRelease w repo (d ++ "/" ++ n ++ "/" ++ r ++ "/" ++ t)).1 →
      m = "PUT" ∧ u = artifactURI d n r t) ∧
    (w.newRequestErr "PUT" (artifactURI d n r t) = none →
      w.httpDo "PUT" (artifactURI d n r t) = .ok 200 →
      corednsRelease w repo (d ++ "/" ++ n ++ "/" ++ r ++ "/" ++ t) =
        ([Event.run "make" ["coredns"] w.cwd, Event.openFile (repo ++ "/coredns"),
          Event.newRequest "PUT" (artifactURI d n r t),
          Event.send "PUT" "text/plain" (repo ++ "/coredns"),
          Event.stdout ("[COUT] CO_COREDNS_URI = " ++ artifactURI d n r t ++ "\n"),
          Event.closeBody, Event.closeFile (repo ++ "/coredns")],
         .ok none)) := by
  have htarget : releaseTarget (d ++ "/" ++ n ++ "/" ++ r ++ "/" ++ t) = .ok (d, n, r, t) := by
    rw [releaseTarget_eq, Split_release d n r t hd hn hr ht]
  rw [corednsRelease_of_target w repo _ d n r t hb ho htarget, uploadURL_coredns]
  refine ⟨?_, ?_, ?_⟩
  · cases w.newRequestErr "PUT" (artifactURI d n r t) with
    | some err => simp
    | none => cases w.httpDo "PUT" (artifactURI d n r t) <;> simp
  · intro m u
    cases w.newRequestErr "PUT" (artifactURI d n r t) with
    | some err => simp
    | none =>
      cases w.httpDo "PUT" (artifactURI d n r t) with
      | error err => simp
      | ok status =>
        simp only
        split_ifs <;> simp
  · intro h1 h2
    simp [h1, h2]

theorem corednsRelease_upload_uri_witness :
    corednsRelease (sampleWorld "" 200) "/any/where"
        ("hub.example.com" ++ "/" ++ "ns" ++ "/" ++ "repo" ++ "/" ++ "v1.0") =
      ([Event.run "make" ["coredns"] "/tmp", Event.openFile "/any/where/coredns",
        Event.newRequest "PUT" "https://hub.example.com/binary/v1/ns/repo/binary/coredns/v1.0",
        Event.send "PUT" "text/plain" "/any/where/coredns",
        Event.stdout
          "[COUT] CO_COREDNS_URI = https://hub.example.com/binary/v1/ns/repo/binary/coredns/v1.0\n",
        Event.closeBody, Event.closeFile "/any/where/coredns"],
       .ok none) :=
  (corednsRelease_upload_uri (sampleWorld "" 200) "/any/where" "hub.example.com" "ns" "repo"
    "v1.0" (by decide) (by decide) (by decide) (by decide) (by decide) (by decide)).2.2
    (by decide) (by decide)

/-- C7: when the build succeeds, the file opens and the request is answered
with status `s`, `corednsRelease` returns no error exactly when `s = 200`; it
returns `Binary upload failed.` for 400, `Action unauthorized.` for 401 and
`Unknown error.` for every other status; the three messages differ, and in
each failing case the run writes the line `[COUT] CO_RESULT = false` to
standard output exactly once. -/
theorem corednsRelease_status (w : World) (repo release d n r t : String) (s : Nat)
    (hb : (corednsBuild w).2 = none) (ho : w.openErr (repo ++ "/coredns") = none)
    (ht : releaseTarget release = .ok (d, n, r, t))
    (hn : w.newRequestErr "PUT" (uploadURL d n r "coredns" t) = none)
    (hs : w.httpDo "PUT" (uploadURL d n r "coredns" t) = .ok s) :
    ((corednsRelease w repo release).2 = .ok none ↔ s = 200) ∧
    (s = 400 → (corednsRelease w repo release).2 = .ok (some "Binary upload failed.")) ∧
    (s = 401 → (corednsRelease w repo release).2 = .ok (some "Action unauthorized.")) ∧
    (s ≠ 200 → s ≠ 400 → s ≠ 401 →
      (corednsRelease w repo release).2 = .ok (some "Unknown error.")) ∧
    ("Binary upload failed." ≠ "Action unauthorized." ∧
      "Binary upload failed." ≠ "Unknown error." ∧
      "Action unauthorized." ≠ "Unknown error.") ∧
    (s ≠ 200 →
      (stdoutOf (corednsRelease w repo release).1).count "[COUT] CO_RESULT = false\n" = 1) := by
  rw [corednsRelease_of_target w repo release d n r t hb ho ht]
  simp only [hn, hs]
  have hline : resultLine "false" = "[COUT] CO_RESULT = false\n" := by decide
  refine ⟨?_, ?_, ?_, ?_, by decide, ?_⟩
  · by_cases h2 : s = 200
    · simp [h2]
    · simp only [h2, if_false, iff_false]
      split_ifs <;> simp
  · intro h
    simp [h]
  · intro h
    simp [h]
  · intro h2 h4 h41
    simp [h2, h4, h41]
  · intro h2
    simp only [h2, if_false, hline]
    split_ifs <;> simp [stdoutOf]

theorem corednsRelease_status_witness :
    (corednsRelease (sampleWorld "" 401) "/go" "hub.example.com/ns/repo/v1.0").2 =
      .ok (some "Action unauthorized.") :=
  (corednsRelease_status (sampleWorld "" 401) "/go" "hub.example.com/ns/repo/v1.0"
    "hub.example.com" "ns" "repo" "v1.0" 401
    (by decide) (by decide) (by decide) (by decide) (by decide)).2.2.1 rfl

/-! ## Lemmas on `main` -/

theorem parseEnv_snd_eq (env : String) :
    (parseEnv env).2 =
      if Fields env = [] then .ok ⟨"", "", "", some "CO_DATA value is null\n"⟩
      else if ∀ t ∈ Fields env, '=' ∈ t.data then
        .ok ⟨lastSegmentD "coredns" (Fields env) "", lastSegmentD "action" (Fields env) "",
             lastSegmentD "release" (Fields env) "", none⟩
      else .error (.panic (.indexOutOfRange 1 1)) := by
  by_cases hne : Fields env = []
  · simp [parseEnv, hne]
  · rw [if_neg hne, parseEnv_snd_of_tokens env hne, parseEnvLoop_snd]

theorem unknownParameter_ne_result (x v : String) :
    "[COUT] Unknown Parameter: [" ++ x ++ "]\n" ≠ resultLine v := by
  intro h
  have := congrArg String.data h
  simp [resultLine, String.data_append] at this

theorem parseEnvLoop_stdout (toks : List String) :
    ∀ uri action release, ∀ l ∈ stdoutOf (parseEnvLoop toks uri action release).1,
      ∃ x, l = "[COUT] Unknown Parameter: [" ++ x ++ "]\n" := by
  induction toks with
  | nil => intro u a r l hl; simp [parseEnvLoop, stdoutOf] at hl
  | cons v vs ih =>
    intro u a r l hl
    unfold parseEnvLoop at hl
    rcases hs : Split v '=' with _ | ⟨k, _ | ⟨val, tl⟩⟩
    · simp [hs, stdoutOf] at hl
    · simp [hs, stdoutOf] at hl
    · simp only [hs] at hl
      split_ifs at hl
      · exact ih _ _ _ l hl
      · exact ih _ _ _ l hl
      · exact ih _ _ _ l hl
      · simp only [stdoutOf, List.mem_cons] at hl
        rcases hl with hl | hl
        · exact ⟨_, hl⟩
        · exact ih _ _ _ l hl

/-- The lines `parseEnv` writes are not result lines. -/
theorem parseEnv_stdout (env v : String) : resultLine v ∉ stdoutOf (parseEnv env).1 := by
  intro h
  unfold parseEnv at h
  simp only at h
  split_ifs at h
  · simp [stdoutOf] at h
  · obtain ⟨x, hx⟩ := parseEnvLoop_stdout _ _ _ _ _ h
    exact unknownParameter_ne_result x v hx.symm

theorem length_ne_zero_of_ne_empty (s : String) (h : s ≠ "") : ¬ s.length = 0 := by
  intro h0
  apply h
  apply String.ext
  exact List.length_eq_zero.1 h0

/-- What `corednsRelease` writes to standard output, by the way it ends. -/
theorem corednsRelease_summary (w : World) (repo release : String) :
    ((corednsRelease w repo release).2 = .ok none ∧
      ∃ u, stdoutOf (corednsRelease w repo release).1 = ["[COUT] CO_COREDNS_URI = " ++ u]) ∨
    ((∃ e, (corednsRelease w repo release).2 = .ok (some e)) ∧
      stdoutOf (corednsRelease w repo release).1 = [resultLine "false"]) ∨
    ((∃ p, (corednsRelease w repo release).2 = .error (.panic p)) ∧
      (Split release '/').length < 4 ∧
      stdoutOf (corednsRelease w repo release).1 = []) := by
  cases hb : (corednsBuild w).2 with
  | some e =>
    right; left
    unfold corednsRelease
    rw [corednsBuild_err w e hb]
    simp [stdoutOf]
  | none =>
    cases ho : w.openErr (repo ++ "/coredns") with
    | some e =>
      right; left
      unfold corednsRelease
      rw [corednsBuild_ok w hb]
      simp [ho, stdoutOf]
    | none =>
      rcases hs : Split release '/' with _ | ⟨a, _ | ⟨b, _ | ⟨c, _ | ⟨d, l⟩⟩⟩⟩
      case cons.cons.cons.cons =>
        have ht : releaseTarget release = .ok (a, b, c, d) := by
          rw [releaseTarget_eq, hs]
        rw [corednsRelease_of_target w repo release a b c d hb ho ht]
        cases w.newRequestErr "PUT" (uploadURL a b c "coredns" d) with
        | some err => right; left; simp [stdoutOf]
        | none =>
          cases w.httpDo "PUT" (uploadURL a b c "coredns" d) with
          | error err => right; left; simp [stdoutOf]
          | ok status =>
            by_cases h2 : status = 200
            · left
              refine ⟨by simp [h2], uploadURL a b c "coredns" d ++ "\n", ?_⟩
              simp [h2, stdoutOf, String.append_assoc]
            · right; left
              simp only [h2, if_false]
              split_ifs <;> simp [stdoutOf]
      all_goals
        right; right
        have ht : releaseTarget release = .error (.panic (.indexOutOfRange
            (Split release '/').length (Split release '/').length)) := by
          rw [releaseTarget_eq, hs]
        unfold corednsRelease
        rw [corednsBuild_ok w hb]
        simp only [ho, ht]
        simp [stdoutOf, hs]

/-- The run of `main` after `parseEnv` has returned without an error. -/
theorem main_of_parsed (w : World) (tr : List Event) (u a r : String)
    (hne : w.getenv "CO_DATA" ≠ "")
    (hp : parseEnv (w.getenv "CO_DATA") = (tr, .ok ⟨u, a, r, none⟩)) :
    main w =
      match w.runCmd "git" ["clone", u, basePath w] w.cwd with
      | some e =>
        (tr ++ [Event.mkdirAll (basePath w),
                Event.run "git" ["clone", u, basePath w] w.cwd,
                Event.stderr ("[COUT] Git clone error: " ++ e ++ "\n"),
                Event.stdout (resultLine "false")], .exit 1)
      | none =>
        dispatch w (tr ++ [Event.mkdirAll (basePath w),
                Event.run "git" ["clone", u, basePath w] w.cwd]) a r := by
  unfold main
  simp only [length_ne_zero_of_ne_empty _ hne, if_false, hp, gitClone_eq]
  cases w.runCmd "git" ["clone", u, basePath w] w.cwd <;> simp

/-- The run of `main` after `parseEnv` has returned its error. -/
theorem main_of_parse_error (w : World) (tr : List Event) (u a r e : String)
    (hne : w.getenv "CO_DATA" ≠ "")
    (hp : parseEnv (w.getenv "CO_DATA") = (tr, .ok ⟨u, a, r, some e⟩)) :
    main w =
      (tr ++ [Event.stderr ("[COUT] Parse the CO_DATA error: " ++ e ++ "\n"),
              Event.stdout (resultLine "false")], .exit 1) := by
  unfold main
  simp only [length_ne_zero_of_ne_empty _ hne, if_false, hp]

/-- What the `switch action` of `main` does, by whether the action is a known
one and its function returns no error. -/
theorem dispatch_summary (w : World) (t : List Event) (a r : String) :
    ((a = "build" ∧ (corednsBuild w).2 = none ∨
      a = "test" ∧ (corednsTest w).2 = none ∨
      a = "release" ∧ (corednsRelease w (basePath w) r).2 = .ok none) →
      (dispatch w t a r).2 = .exit 0 ∧
      ∃ mid, stdoutOf (dispatch w t a r).1 = stdoutOf t ++ mid ++ [resultLine "true"]) ∧
    (¬ (a = "build" ∧ (corednsBuild w).2 = none ∨
      a = "test" ∧ (corednsTest w).2 = none ∨
      a = "release" ∧ (corednsRelease w (basePath w) r).2 = .ok none) →
      ((dispatch w t a r).2 = .exit 1 ∧
        stdoutOf (dispatch w t a r).1 = stdoutOf t ++ [resultLine "false"]) ∨
      (a = "release" ∧ (Split r '/').length < 4 ∧
        ∃ p, (dispatch w t a r).2 = .panic p)) := by
  unfold dispatch
  by_cases h1 : a = "build"
  · subst h1
    cases hb : (corednsBuild w).2 with
    | none =>
      rw [corednsBuild_ok w hb]
      simp [stdoutOf_append, stdoutOf]
    | some e =>
      rw [corednsBuild_err w e hb]
      simp [stdoutOf_append, stdoutOf]
  · by_cases h2 : a = "test"
    · subst h2
      cases hb : (corednsTest w).2 with
      | none =>
        rw [corednsTest_ok w hb]
        simp [stdoutOf_append, stdoutOf]
      | some e =>
        rw [corednsTest_err w e hb]
        simp [stdoutOf_append, stdoutOf]
    · by_cases h3 : a = "release"
      · subst h3
        rcases corednsRelease_summary w (basePath w) r with
          ⟨hr, u, hu⟩ | ⟨⟨e, hr⟩, hu⟩ | ⟨⟨q, hr⟩, hlt, hu⟩
        · rcases hc : corednsRelease w (basePath w) r with ⟨b, res⟩
          rw [hc] at hr hu
          simp only at hr hu
          subst hr
          simp only [stdoutOf_append, stdoutOf, hu, h1, h2, if_false, if_true, true_and,
            and_true, false_and, false_or, or_false, not_true, forall_true_left, reduceCtorEq,
            List.append_assoc, List.append_cancel_left_eq, not_false_eq_true, true_implies,
            false_implies, List.nil_append]
          exact ⟨["[COUT] CO_COREDNS_URI = " ++ u], rfl⟩
        · rcases hc : corednsRelease w (basePath w) r with ⟨b, res⟩
          rw [hc] at hr hu
          simp only at hr hu
          subst hr
          simp [stdoutOf_append, stdoutOf, hu]
        · rcases hc : corednsRelease w (basePath w) r with ⟨b, res⟩
          rw [hc] at hr hu
          simp only at hr hu
          subst hr
          simp [hlt]
      · simp [h1, h2, h3, stdoutOf_append, stdoutOf]

/-- C2: for a non-empty `CO_DATA` whose tokens all contain `=` (and whose
release value, when the action is `release`, has four segments or more),
`parseEnv` returns, and `main` exits with code 0, the line
`[COUT] CO_RESULT = true` being the last it writes to standard output, when
the clone succeeds, the action is `build`, `test` or `release` and the
function of that action returns no error; in every other case (an unknown or
missing action among them) it exits with code 1, the last line it writes is
`[COUT] CO_RESULT = false`, and it never writes the `true` line. -/
theorem main_exit_code (w : World) (hne : w.getenv "CO_DATA" ≠ "")
    (hall : ∀ t ∈ Fields (w.getenv "CO_DATA"), '=' ∈ t.data)
    (hrel : ∀ p, (parseEnv (w.getenv "CO_DATA")).2 = .ok p → p.action = "release" →
      4 ≤ (Split p.release '/').length) :
    ∃ p, (parseEnv (w.getenv "CO_DATA")).2 = .ok p ∧
      (((gitClone w p.uri (basePath w)).2 = .ok none ∧
        (p.action = "build" ∧ (corednsBuild w).2 = none ∨
         p.action = "test" ∧ (corednsTest w).2 = none ∨
         p.action = "release" ∧ (corednsRelease w (basePath w) p.release).2 = .ok none)) →
        (main w).2 = .exit 0 ∧
        (stdoutOf (main w).1).getLast? = some "[COUT] CO_RESULT = true\n") ∧
      (¬ ((gitClone w p.uri (basePath w)).2 = .ok none ∧
        (p.action = "build" ∧ (corednsBuild w).2 = none ∨
         p.action = "test" ∧ (corednsTest w).2 = none ∨
         p.action = "release" ∧ (corednsRelease w (basePath w) p.release).2 = .ok none)) →
        (main w).2 = .exit 1 ∧
        (stdoutOf (main w).1).getLast? = some "[COUT] CO_RESULT = false\n" ∧
        "[COUT] CO_RESULT = false\n" ∈ stdoutOf (main w).1 ∧
        "[COUT] CO_RESULT = true\n" ∉ stdoutOf (main w).1) := by
  have hT : "[COUT] CO_RESULT = true\n" = resultLine "true" := by decide
  have hF : "[COUT] CO_RESULT = false\n" = resultLine "false" := by decide
  have hTF : resultLine "true" ≠ resultLine "false" := by decide
  rw [hT, hF]
  obtain ⟨tr, res, hpe⟩ : ∃ tr res, parseEnv (w.getenv "CO_DATA") = (tr, res) := ⟨_, _, rfl⟩
  have h2 := parseEnv_snd_eq (w.getenv "CO_DATA")
  have hst := parseEnv_stdout (w.getenv "CO_DATA") "true"
  rw [hpe] at hrel h2 hst ⊢
  simp only at hrel h2 hst ⊢
  by_cases hf : Fields (w.getenv "CO_DATA") = []
  · rw [if_pos hf] at h2
    subst h2
    refine ⟨_, rfl, ?_, ?_⟩
    · rintro ⟨_, h⟩
      simp at h
    · intro _
      rw [main_of_parse_error w tr "" "" "" _ hne hpe]
      simp [stdoutOf_append, stdoutOf, hst, hTF]
  · rw [if_neg hf, if_pos hall] at h2
    subst h2
    have hrel2 := hrel _ rfl
    simp only at hrel2
    refine ⟨_, rfl, ?_⟩
    simp only
    rw [main_of_parsed w tr _ _ _ hne hpe, gitClone_eq]
    cases hc : w.runCmd "git"
        ["clone", lastSegmentD "coredns" (Fields (w.getenv "CO_DATA")) "", basePath w] w.cwd with
    | some e =>
      simp [stdoutOf_append, stdoutOf, hst, hTF]
    | none =>
      obtain ⟨hgood, hbad⟩ := dispatch_summary w
        (tr ++ [Event.mkdirAll (basePath w),
          Event.run "git"
            ["clone", lastSegmentD "coredns" (Fields (w.getenv "CO_DATA")) "", basePath w]
            w.cwd])
        (lastSegmentD "action" (Fields (w.getenv "CO_DATA")) "")
        (lastSegmentD "release" (Fields (w.getenv "CO_DATA")) "")
      simp only [true_and]
      constructor
      · intro h
        obtain ⟨he, mid, hmid⟩ := hgood h
        refine ⟨he, ?_⟩
        rw [hmid]
        simp
      · intro h
        rcases hbad h with ⟨he, hout⟩ | ⟨ha, hlt, _⟩
        · refine ⟨he, ?_⟩
          rw [hout]
          simp [stdoutOf_append, stdoutOf, hst, hTF]
        · have := hrel2 ha
          omega

theorem main_exit_code_witness :
    (main (sampleWorld "coredns=https://example.com/repo.git action=build" 200)).2 = .exit 0 ∧
    (stdoutOf (main (sampleWorld "coredns=https://example.com/repo.git action=build" 200)).1).getLast?
      = some "[COUT] CO_RESULT = true\n" := by
  have e : ∀ p, (parseEnv ((sampleWorld "coredns=https://example.com/repo.git action=build"
      200).getenv "CO_DATA")).2 = .ok p →
      p = ⟨"https://example.com/repo.git", "build", "", none⟩ := by
    intro p hp
    have e0 : (parseEnv ((sampleWorld "coredns=https://example.com/repo.git action=build"
        200).getenv "CO_DATA")).2 =
        .ok ⟨"https://example.com/repo.git", "build", "", none⟩ := by decide
    rw [e0] at hp
    cases hp
    rfl
  obtain ⟨p, hp, hgood, _⟩ :=
    main_exit_code (sampleWorld "coredns=https://example.com/repo.git action=build" 200)
      (by decide) (by decide)
      (fun p hp ha => by
        rw [e p hp] at ha
        exact absurd ha (by decide))
  have hp2 := e p hp
  subst hp2
  exact hgood ⟨by decide, Or.inl ⟨rfl, by decide⟩⟩

/-- The run of `main` when `parseEnv` panics. -/
theorem main_of_parse_panic (w : World) (tr : List Event) (term : Termination)
    (hne : w.getenv "CO_DATA" ≠ "")
    (hp : parseEnv (w.getenv "CO_DATA") = (tr, .error term)) :
    main w = (tr, term) := by
  unfold main
  simp only [length_ne_zero_of_ne_empty _ hne, if_false, hp]

/-- With a non-empty `CO_DATA`, every run of `main` that ends in `os.Exit` has
written the `true` or the `false` result line last. -/
theorem main_last_line_of_nonempty (w : World) (hne : w.getenv "CO_DATA" ≠ "") (c : Nat)
    (hexit : (main w).2 = .exit c) :
    (stdoutOf (main w).1).getLast? = some "[COUT] CO_RESULT = true\n" ∨
    (stdoutOf (main w).1).getLast? = some "[COUT] CO_RESULT = false\n" := by
  have hT : "[COUT] CO_RESULT = true\n" = resultLine "true" := by decide
  have hF : "[COUT] CO_RESULT = false\n" = resultLine "false" := by decide
  rw [hT, hF]
  obtain ⟨tr, res, hpe⟩ : ∃ tr res, parseEnv (w.getenv "CO_DATA") = (tr, res) := ⟨_, _, rfl⟩
  have h2 := parseEnv_snd_eq (w.getenv "CO_DATA")
  rw [hpe] at h2
  simp only at h2
  split_ifs at h2 with hf hall
  · subst h2
    rw [main_of_parse_error w tr "" "" "" _ hne hpe]
    simp [stdoutOf_append, stdoutOf]
  · subst h2
    rw [main_of_parsed w tr _ _ _ hne hpe] at hexit ⊢
    cases hc : w.runCmd "git"
        ["clone", lastSegmentD "coredns" (Fields (w.getenv "CO_DATA")) "", basePath w] w.cwd with
    | some e => simp [stdoutOf_append, stdoutOf]
    | none =>
      rw [hc] at hexit
      simp only at hexit ⊢
      obtain ⟨hgood, hbad⟩ := dispatch_summary w
        (tr ++ [Event.mkdirAll (basePath w),
          Event.run "git"
            ["clone", lastSegmentD "coredns" (Fields (w.getenv "CO_DATA")) "", basePath w]
            w.cwd])
        (lastSegmentD "action" (Fields (w.getenv "CO_DATA")) "")
        (lastSegmentD "release" (Fields (w.getenv "CO_DATA")) "")
      by_cases h : (lastSegmentD "action" (Fields (w.getenv "CO_DATA")) "" = "build" ∧
            (corednsBuild w).2 = none ∨
          lastSegmentD "action" (Fields (w.getenv "CO_DATA")) "" = "test" ∧
            (corednsTest w).2 = none ∨
          lastSegmentD "action" (Fields (w.getenv "CO_DATA")) "" = "release" ∧
            (corednsRelease w (basePath w)
              (lastSegmentD "release" (Fields (w.getenv "CO_DATA")) "")).2 = .ok none)
      · obtain ⟨_, mid, hmid⟩ := hgood h
        left
        rw [hmid]
        simp
      · rcases hbad h with ⟨_, hout⟩ | ⟨_, _, q, hq⟩
        · right
          rw [hout]
          simp
        · rw [hq] at hexit
          cases hexit
  · subst h2
    rw [main_of_parse_panic w tr _ hne hpe] at hexit
    cases hexit

/-- C1, at the failing input: with `CO_DATA` unset or empty, `main` exits with
code 1 after writing one line to standard output, and that line is
`[COUT] CO_RESULT = The CO_DATA value is null.`, neither the `true` nor the
`false` result line. -/
theorem main_null_data (w : World) (h : w.getenv "CO_DATA" = "") :
    main w =
      ([Event.stderr "[COUT] The CO_DATA value is null.\n",
        Event.stdout "[COUT] CO_RESULT = The CO_DATA value is null.\n"], .exit 1) ∧
    (stdoutOf (main w).1).getLast? =
      some "[COUT] CO_RESULT = The CO_DATA value is null.\n" ∧
    (stdoutOf (main w).1).getLast? ≠ some "[COUT] CO_RESULT = true\n" ∧
    (stdoutOf (main w).1).getLast? ≠ some "[COUT] CO_RESULT = false\n" := by
  have hm : main w =
      ([Event.stderr "[COUT] The CO_DATA value is null.\n",
        Event.stdout "[COUT] CO_RESULT = The CO_DATA value is null.\n"], .exit 1) := by
    unfold main
    have h0 : ("" : String).length = 0 := rfl
    simp only [h, h0, if_true]
    have e1 : "[COUT] " ++ "The CO_DATA value is null." ++ "\n" =
        "[COUT] The CO_DATA value is null.\n" := by decide
    have e2 : resultLine "The CO_DATA value is null." =
        "[COUT] CO_RESULT = The CO_DATA value is null.\n" := by decide
    rw [e1, e2]
  rw [hm]
  exact ⟨rfl, by decide, by decide, by decide⟩

theorem main_null_data_witness :
    main (sampleWorld "" 200) =
      ([Event.stderr "[COUT] The CO_DATA value is null.\n",
        Event.stdout "[COUT] CO_RESULT = The CO_DATA value is null.\n"], .exit 1) :=
  (main_null_data (sampleWorld "" 200) (by decide)).1

/-- C8, at the failing input: `corednsBuild` runs `make coredns` and
`corednsTest` runs `make test`, each in the current directory of the process;
started in `/tmp` with `GOPATH=/go`, `main` clones into
`/go/src/github.com/coredns/coredns` and runs `make coredns` in `/tmp`. -/
theorem make_runs_in_cwd (w : World) :
    (corednsBuild w).1.head? = some (Event.run "make" ["coredns"] w.cwd) ∧
    (corednsTest w).1.head? = some (Event.run "make" ["test"] w.cwd) ∧
    basePath (sampleWorld "coredns=https://example.com/repo.git action=build" 200) =
      "/go/src/github.com/coredns/coredns" ∧
    (main (sampleWorld "coredns=https://example.com/repo.git action=build" 200)).1 =
      [Event.mkdirAll "/go/src/github.com/coredns/coredns",
       Event.run "git"
         ["clone", "https://example.com/repo.git", "/go/src/github.com/coredns/coredns"] "/tmp",
       Event.run "make" ["coredns"] "/tmp",
       Event.stdout "[COUT] CO_RESULT = true\n"] := by
  refine ⟨?_, ?_, by decide, by decide⟩
  · rw [corednsBuild_eq]
    cases w.runCmd "make" ["coredns"] w.cwd <;> rfl
  · rw [corednsTest_eq]
    cases w.runCmd "make" ["test"] w.cwd <;> rfl

/-! ## The library model on concrete inputs -/

theorem Fields_example : Fields " a=b  c\td " = ["a=b", "c", "d"] := by decide

theorem Split_example : Split "a=b=c" '=' = ["a", "b", "c"] ∧ Split "" '/' = [""] := by decide

theorem Base_example : Base "/go/src/coredns" = "coredns" ∧ Base "///" = "/" ∧ Base "" = "." := by
  decide

theorem Join_example :
    Join ["/go", "src", "github.com", "coredns", "coredns"] = "/go/src/github.com/coredns/coredns" ∧
    Join ["", "src", "github.com", "coredns", "coredns"] = "src/github.com/coredns/coredns" := by
  decide

theorem Clean_example :
    Clean "/a/../../b/./c//" = "/b/c" ∧ Clean "a/../../b/./c//" = "../b/c" := by
  decide

end CoreDNS
